import Mathlib

/-!
# Verification of the quack vendoring / task-runner engine

A shallow embedding of `quack/quack.py`.  Pure string manipulation is
translated function-for-function; the file system, git and subprocess layer
(the spec's "external collaborators") is modelled by an explicit environment
`Env` giving the deterministic outcome of each external call, and an explicit
state `FS` recording the observable effects (project-root entries, the
`.git/modules` scratch metadata, the private working area, the `.gitmodules`
registration file, `.gitignore` content, version-control directories created
by nested invocations, the printed log, and the external commands issued).
Python exceptions and `sys.exit` are modelled with `Except Err`.
-/

namespace Quack

/-- Python truthiness of an optional string (`None` and `''` are falsy). -/
def truthy : Option String → Bool
  | none => false
  | some s => !(s == "")

/-- Python startswith over character lists. -/
def listStartsWith : List Char → List Char → Bool
  | _, [] => true
  | [], _ :: _ => false
  | a :: as, b :: bs => a == b && listStartsWith as bs

/-- Python `s.startswith(pre)` (also models `s.find(pre) == 0`). -/
def pyStartsWith (s pre : String) : Bool :=
  listStartsWith s.toList pre.toList

/-- Helper for `pyReplace`: scan left to right, replacing each non-overlapping
occurrence of `pat`; the `Nat` argument counts characters still to be dropped
because they belonged to an occurrence already replaced. -/
def listReplaceAux (pat rep : List Char) : List Char → Nat → List Char
  | [], _ => []
  | _ :: rest, Nat.succ k => listReplaceAux pat rep rest k
  | c :: rest, 0 =>
    if listStartsWith (c :: rest) pat && !pat.isEmpty then
      rep ++ listReplaceAux pat rep rest (pat.length - 1)
    else
      c :: listReplaceAux pat rep rest 0

/-- Python `s.replace(pat, rep)` (all non-overlapping occurrences). -/
def pyReplace (s pat rep : String) : String :=
  (listReplaceAux pat.toList rep.toList s.toList 0).asString

/-- Character length of a string. -/
def sLen (s : String) : Nat := s.toList.length

/-- Python `s.find(c)`: index of the first occurrence, `-1` if absent. -/
def strFind (s : String) (c : Char) : Int :=
  match s.toList.findIdx? (· == c) with
  | some i => (i : Int)
  | none => -1

/-- Python `s.rfind(c)`: index of the last occurrence, `-1` if absent. -/
def strRfind (s : String) (c : Char) : Int :=
  match s.toList.reverse.findIdx? (· == c) with
  | some i => (sLen s : Int) - 1 - (i : Int)
  | none => -1

/-- Python `s[a:b]` for non-negative clamped bounds. -/
def pySlice (s : String) (a b : Nat) : String :=
  ((s.toList.drop a).take (b - a)).asString

/-- Helper for `pySplitNL`. -/
def splitNLAux : List Char → List Char → List String
  | [], acc => [acc.reverse.asString]
  | '\n' :: rest, acc => acc.reverse.asString :: splitNLAux rest []
  | c :: rest, acc => splitNLAux rest (c :: acc)

/-- Python `s.split('\n')`. -/
def pySplitNL (s : String) : List String :=
  splitNLAux s.toList []

/-- Python `' '.join(parts)`. -/
def joinSpace : List String → String
  | [] => ""
  | [s] => s
  | s :: rest => s ++ " " ++ joinSpace rest

/-- Number of `%` conversion specifiers in a Python format string
(`%%` is an escaped percent sign, not a specifier). -/
def pctCount : List Char → Nat
  | [] => 0
  | '%' :: c :: rest => (if c = '%' then 0 else 1) + pctCount rest
  | _ :: rest => pctCount rest

/-- Substitute arguments for `%` specifiers, in order. -/
def pctSub : List Char → List String → List Char
  | [], _ => []
  | '%' :: c :: rest, args =>
    if c = '%' then '%' :: pctSub rest args
    else (args.headD "").toList ++ pctSub rest args.tail
  | c :: rest, args => c :: pctSub rest args

/-- A directory entry: either a regular file with its content, or a directory
whose whole tree is abstracted as one opaque content value (for a vendored
module this is the tree after the `.git*` ignore filter). -/
inductive FSEntry where
  | file (content : String)
  | dir (tree : String)
deriving DecidableEq, Repr

/-- Observable state touched by the engine. -/
structure FS where
  /-- Entries of the project root, keyed by name (vendored destinations,
  directories created for nested invocations, ...). -/
  root : List (String × FSEntry) := []
  /-- Whether the stale submodule metadata directory `.git/modules/` exists. -/
  gitModulesDir : Bool := false
  /-- Whether the private working area `.quack/modules` exists. -/
  quackModules : Bool := false
  /-- Whether the `.gitmodules` registration file exists. -/
  gitmodulesFile : Bool := false
  /-- Content of `.gitignore` (`none` = file absent). -/
  gitignore : Option String := none
  /-- Directories currently holding version-control metadata (`<d>/.git`). -/
  vcs : List String := []
  /-- Lines printed to standard output, in order. -/
  log : List String := []
  /-- External commands issued, as (command, working directory) pairs. -/
  calls : List (String × String) := []
deriving DecidableEq, Repr

/-- Error / abnormal-termination outcomes of the Python code. -/
inductive Err where
  | nameError (v : String)
  | typeError
  | systemExit (code : Int)
  | indexError
  | attributeError
  | notADirectory
  | isADirectory
  | fileExists
  | fileNotFound
deriving DecidableEq, Repr

/-- Deterministic outcomes of the external collaborators (git, subprocesses,
the remote repositories): what a fresh clone of a repository/branch contains,
what revision it lands on, and the exit status / captured output of each
shell command. -/
structure Env where
  /-- Current working directory (`os.getcwd()`). -/
  cwd : String
  /-- Whole-tree content of a fresh clone of (repository, branch). -/
  rootTree : String → String → String
  /-- Entry at a non-empty subpath of a fresh clone of (repository, branch). -/
  subEntry : String → String → String → Option FSEntry
  /-- Revision a fresh clone of (repository, branch) lands on. -/
  clonesha : String → String → String
  /-- Exit status of a shell command run in a working directory. -/
  run : String → String → Int
  /-- Captured standard output of a shell command. -/
  runOut : String → String → String
  /-- Captured standard error of a shell command. -/
  runErr : String → String → String

/-- Append a printed line. -/
def pushLog (fs : FS) (m : String) : FS :=
  { fs with log := fs.log ++ [m] }

/-- Look up a project-root entry by name. -/
def lookupRoot (fs : FS) (k : String) : Option FSEntry :=
  (fs.root.find? (fun p => p.1 == k)).map Prod.snd

/-- Insert or overwrite an entry in an association list. -/
def setRootList (l : List (String × FSEntry)) (k : String) (v : FSEntry) :
    List (String × FSEntry) :=
  match l with
  | [] => [(k, v)]
  | (k', v') :: rest =>
    if k' == k then (k, v) :: rest else (k', v') :: setRootList rest k v

/-- Insert or overwrite a project-root entry. -/
def setRoot (fs : FS) (k : String) (v : FSEntry) : FS :=
  { fs with root := setRootList fs.root k v }

/-- Delete a project-root entry. -/
def delRoot (fs : FS) (k : String) : FS :=
  { fs with root := fs.root.filter (fun p => p.1 != k) }

/-- Module metadata (`class Module`), after construction. -/
structure Module where
  name : String
  repository : String
  path : String
  branch : String
  hexsha : Option String
  tag : Option String
  isfile : Bool
deriving DecidableEq, Repr

/-- One `modules` mapping value as read from the YAML file (the keyword
arguments of `Module.__init__`, with `repository = none` meaning the key is
absent). -/
structure MCfg where
  repository : Option String := none
  path : String := ""
  branch : String := "master"
  hexsha : Option String := none
  tag : Option String := none
  isfile : Bool := false
deriving DecidableEq, Repr

/-- Model of `Module.from_config`: requires `repository`, else writes a diagnostic and
exits with status 1. -/
def fromConfig (name : String) (cfg : MCfg) : Except Err Module :=
  match cfg.repository with
  | none => .error (.systemExit 1)
  | some r => .ok ⟨name, r, cfg.path, cfg.branch, cfg.hexsha, cfg.tag, cfg.isfile⟩

/-- Root configuration document.  `modules = none` models an absent (or
`None`-valued) `modules` key; `some l` models a mapping with entries `l` in
iteration order. -/
structure Config where
  modules : Option (List (String × MCfg)) := none
  gitignore : Bool := false
deriving DecidableEq, Repr

/-- A profile.  `dependencies = some l` models a mapping with entries `l`
(an absent key defaults to the empty mapping, i.e. `some []`); `none` models
a present non-mapping value, which the executor skips (`isinstance` check).
`tasks` is the ordered task list (absent key defaults to `[]`). -/
structure Profile where
  dependencies : Option (List (String × String)) := some []
  tasks : List String := []
deriving DecidableEq, Repr

/-- Execution statistics. -/
structure Stats where
  tasks : Nat := 0
  dependencies : Nat := 0
deriving DecidableEq, Repr

/-- Model of `_nice_call`: run a command, print its stdout on success; on failure the
source evaluates `"Command failed with status %d, stderr=\n%s" % stderr` —
a format string with two conversion specifiers applied to the single value
`stderr` — before it could write the message and `sys.exit(1)`. -/
def niceCall (env : Env) (fs : FS) (command : String)
    (cwd : Option String := none) : Except Err FS :=
  let workdir := cwd.getD env.cwd
  let fs := pushLog fs ("Executing '" ++ command ++ "' in " ++ workdir ++ "...")
  let fs := { fs with calls := fs.calls ++ [(command, workdir)] }
  let ret := env.run command workdir
  if ret = 0 then
    .ok (pushLog fs ("Got stdout:\n" ++ env.runOut command workdir))
  else
    if pctCount "Command failed with status %d, stderr=\n%s".toList
        = [env.runErr command workdir].length then
      .error (.systemExit 1)
    else
      .error .typeError

/-- Model of `_remove_dir` applied to a project-root name: `shutil.rmtree` removes an
existing directory but raises `NotADirectoryError` on a regular file. -/
def removeDir (fs : FS) (name : String) : Except Err (FS × Bool) :=
  match lookupRoot fs name with
  | none => .ok (fs, false)
  | some (.dir _) => .ok (delRoot fs name, true)
  | some (.file _) => .error .notADirectory

/-- Checkout-target resolution (`_fetch_modules` lines 152-163).  The source
interpolates the *free variables* `tag` / `hexsha` (not the module's fields)
into the checkout command, so a truthy `tag` or `hexsha` raises `NameError`
before any checkout happens; otherwise the target is the revision the clone
landed on. -/
def resolveCheckout (m : Module) (subHexsha : String) (fs : FS) :
    Except Err (FS × String) :=
  if truthy m.tag then
    .error (.nameError "tag")
  else if truthy m.hexsha then
    .error (.nameError "hexsha")
  else
    .ok (fs, subHexsha)

/-- Materialisation step (`_fetch_modules` lines 165-178): compute the source
path inside the private checkout, and copy it over the destination.
`shutil.copyfile` overwrites a file destination but fails on directories on
either side; `shutil.copytree` requires the destination to be absent (hence
the preceding `_remove_dir`) and a directory source. -/
def vendorCopy (env : Env) (fs : FS) (m : Module) : Except Err FS :=
  let srcEntry : Option FSEntry :=
    if m.path == "" then some (.dir (env.rootTree m.repository m.branch))
    else env.subEntry m.repository m.branch m.path
  if (m.path != "" && srcEntry.isSome) || m.path == "" then
    if m.isfile then
      let fs :=
        match lookupRoot fs m.name with
        | some (.file _) => delRoot fs m.name
        | _ => fs
      match srcEntry with
      | none => .error .fileNotFound
      | some (.dir _) => .error .isADirectory
      | some (.file c) =>
        match lookupRoot fs m.name with
        | some (.dir _) => .error .isADirectory
        | _ => .ok (setRoot fs m.name (.file c))
    else do
      let (fs, _) ← removeDir fs m.name
      match srcEntry with
      | none => .error .fileNotFound
      | some (.file _) => .error .notADirectory
      | some (.dir t) =>
        match lookupRoot fs m.name with
        | some _ => .error .fileExists
        | none => .ok (setRoot fs m.name (.dir t))
  else
    .ok (pushLog fs (m.path ++ " folder does not exists. Skipped."))

/-- Model of `_fetch_modules` lines 182-184: delete a leftover `.gitmodules` file and
drop it from the host index, via shell commands. -/
def gitmodulesCleanup (env : Env) (fs : FS) : Except Err FS :=
  if fs.gitmodulesFile then do
    let fs ← niceCall env fs "rm .gitmodules"
    let fs := { fs with gitmodulesFile := false }
    niceCall env fs "git rm --quiet --cached .gitmodules"
  else
    .ok fs

/-- Model of `_fetch_modules` lines 188-192: append the module name to `.gitignore`
unless it is already in the in-memory ignore list. -/
def gitignoreAppend (cfg : Config) (fs : FS) (ign : List String)
    (name : String) : FS × List String :=
  if cfg.gitignore then
    if ign.contains name then (fs, ign)
    else
      ({ fs with gitignore := some ((fs.gitignore.getD "") ++ "\n" ++ name) },
        ign ++ [name])
  else (fs, ign)

/-- Body of the per-module loop of `_fetch_modules` (after the name filter):
reject tag+hexsha modules, clone as a transient submodule, resolve the
checkout target, materialise, detach the submodule registration, report, and
update `.gitignore`. -/
def fetchOne (env : Env) (cfg : Config) (fs : FS) (ign : List String)
    (m : Module) : Except Err (FS × List String) :=
  if truthy m.tag && truthy m.hexsha then
    .ok (pushLog fs (m.name ++ ": Cannot be both tag & hexsha."), ign)
  else do
    let fs := pushLog fs ("Cloning: " ++ m.repository)
    let fs := { fs with gitmodulesFile := true }
    let (fs, target) ← resolveCheckout m (env.clonesha m.repository m.branch) fs
    let fs ← vendorCopy env fs m
    let fs ← gitmodulesCleanup env fs
    let fs := pushLog fs ("Cloned: " ++ m.name ++ " (" ++ target ++ ")")
    .ok (gitignoreAppend cfg fs ign m.name)

/-- The `for module in _iter_modules(config)` loop of `_fetch_modules`:
`_iter_modules` lazily yields `Module.from_config(name, cfg)` for each mapping
entry, and the loop skips entries not matching a truthy name filter. -/
def fetchLoop (env : Env) (cfg : Config) (specific : Option String) :
    List (String × MCfg) → FS → List String → Except Err FS
  | [], fs, _ => .ok fs
  | (name, mc) :: rest, fs, ign => do
    let m ← fromConfig name mc
    if truthy specific && (specific != some name) then
      fetchLoop env cfg specific rest fs ign
    else do
      let (fs, ign) ← fetchOne env cfg fs ign m
      fetchLoop env cfg specific rest fs ign

/-- Model of `_fetch_modules`: report when no modules are configured; otherwise clear
stale submodule metadata, ensure the private working area, read the ignore
list, and process each module. -/
def fetchModules (env : Env) (cfg : Config) (specific : Option String)
    (fs : FS) : Except Err FS :=
  match cfg.modules with
  | none => .ok (pushLog fs "No modules found.")
  | some [] => .ok (pushLog fs "No modules found.")
  | some ms =>
    let fs := { fs with gitModulesDir := false, quackModules := true }
    let ign : List String :=
      if cfg.gitignore && fs.gitignore.isSome then
        pySplitNL (fs.gitignore.getD "")
      else []
    fetchLoop env cfg specific ms fs ign

/-- The loop of `_clean_modules` over the raw mapping items. -/
def cleanLoop (specific : Option String) :
    List (String × MCfg) → FS → Except Err FS
  | [], fs => .ok fs
  | (name, _) :: rest, fs =>
    if truthy specific && (specific != some name) then
      cleanLoop specific rest fs
    else
      match removeDir fs name with
      | .error e => .error e
      | .ok (fs, removed) =>
        let fs := if removed then pushLog fs ("Cleaned " ++ name) else fs
        cleanLoop specific rest fs

/-- Model of `_clean_modules`: iterates `config.get('modules').items()` with no
default, so an absent `modules` mapping raises `AttributeError`
(`None.items()`). -/
def cleanModules (cfg : Config) (specific : Option String) (fs : FS) :
    Except Err FS :=
  match cfg.modules with
  | none => .error .attributeError
  | some ms => cleanLoop specific ms fs

/-- Reference parsing of `_run_nested_quack`: the target directory and the
argument list of the nested invocation. -/
def nestedQuackParse (cwd ref : String) : String × List String :=
  let slash := strRfind ref '/'
  let module := if slash > 0 then pySlice ref 0 slash.toNat else cwd
  let colon := strFind ref ':'
  let command := ["quack"]
  let command :=
    if (sLen ref : Int) > colon + 1 then
      command ++ ["-p", pySlice ref (colon + 1).toNat (sLen ref)]
    else command
  let command :=
    if colon > 0 then
      command ++ ["-y", pySlice ref (slash + 1).toNat colon.toNat]
    else command
  (module, command)

/-- Record a fresh `git.Repo.init(d)`. -/
def vcsInit (fs : FS) (d : String) : FS :=
  if fs.vcs.contains d then fs else { fs with vcs := d :: fs.vcs }

/-- Model of `_remove_dir(d + '/.git')`: the directory loses its version-control
metadata. -/
def vcsRemove (fs : FS) (d : String) : FS :=
  { fs with vcs := fs.vcs.filter (· != d) }

/-- Model of `_run_nested_quack`: only `("quack", ref)` pairs have an effect; parse
`ref`, initialise version control in the target directory, create it, run the
nested invocation there, then delete its version-control metadata. -/
def runNestedQuack (env : Env) (fs : FS) (dep : String × String) :
    Except Err FS :=
  if dep.1 != "quack" then .ok fs
  else
    let (module, command) := nestedQuackParse env.cwd dep.2
    let fs := pushLog fs ("Quack.." ++ module)
    let fs := vcsInit fs module
    let fs := if (lookupRoot fs module).isNone then setRoot fs module (.dir "")
              else fs
    match niceCall env fs (joinSpace command) (some module) with
    | .error e => .error e
    | .ok fs => .ok (vcsRemove fs module)

/-- Negation detection of `_run_tasks` (lines 243-245): reading `command[0]`
raises `IndexError` on an empty task string; otherwise strip a leading `-`. -/
def classifyTask (cmd : String) : Except Err (Bool × String) :=
  match cmd.toList with
  | [] => .error .indexError
  | c :: _ =>
    let isNegate := c == '-'
    .ok (isNegate, if isNegate then pySlice cmd 1 (sLen cmd) else cmd)

/-- One iteration of the task loop of `_run_tasks` (lines 243-262), without
the counter update: classify the task, dispatch the `quack:`/`cmd:` side
effect, then unconditionally fetch or clean for `modules`-classified tasks. -/
def taskStep (env : Env) (cfg : Config) (fs : FS) (cmd0 : String) :
    Except Err FS := do
  let (isNegate, command) ← classifyTask cmd0
  let module : Option String :=
    if (pyStartsWith command "modules:" || command == "modules")
        && command != "modules" then
      some (pyReplace command "modules:" "")
    else none
  let isModules := pyStartsWith command "modules:" || command == "modules"
  let isQuack := pyStartsWith command "quack:"
  let isCmd := pyStartsWith command "cmd:"
  let fs ←
    if isModules && command != "modules" then pure fs
    else if isQuack then
      runNestedQuack env fs ("quack", pyReplace command "quack:" "")
    else if isCmd then
      niceCall env fs (pyReplace command "cmd:" "")
    else pure fs
  if isModules && !isNegate then fetchModules env cfg module fs
  else if isModules && isNegate then cleanModules cfg module fs
  else .ok fs

/-- The dependency loop of `_run_tasks` (lines 233-236): each entry is handed
to the nested-invocation dispatcher and then counted. -/
def depsLoop (env : Env) :
    List (String × String) → FS → Nat → Except Err (FS × Nat)
  | [], fs, n => .ok (fs, n)
  | d :: rest, fs, n =>
    match runNestedQuack env fs d with
    | .error e => .error e
    | .ok fs => depsLoop env rest fs (n + 1)

/-- The task loop of `_run_tasks` (lines 241-262). -/
def taskLoop (env : Env) (cfg : Config) :
    List String → FS → Stats → Except Err (FS × Stats)
  | [], fs, stats => .ok (fs, stats)
  | cmd :: rest, fs, stats =>
    match taskStep env cfg fs cmd with
    | .error e => .error e
    | .ok fs => taskLoop env cfg rest fs { stats with tasks := stats.tasks + 1 }

/-- Model of `_run_tasks`: process the dependency mapping (if it is a mapping), then
either report an empty task list or run the tasks in order, returning the
accumulated statistics. -/
def runTasks (env : Env) (cfg : Config) (profile : Profile) (fs : FS) :
    Except Err (FS × Stats) :=
  match (match profile.dependencies with
         | some deps => depsLoop env deps fs 0
         | none => .ok (fs, 0)) with
  | .error e => .error e
  | .ok (fs, ndeps) =>
    let stats : Stats := { tasks := 0, dependencies := ndeps }
    if profile.tasks.isEmpty then
      .ok (pushLog fs "No tasks found.", stats)
    else
      taskLoop env cfg profile.tasks fs stats

/-! ## Sample environments for concrete runs -/

/-- An environment in which every external call succeeds: every clone yields
the tree `"TREE"` landing on revision `"abc123"`, every subpath holds a
directory `"SUB"`, and every shell command exits 0. -/
def envOk : Env :=
  { cwd := ".", rootTree := fun _ _ => "TREE",
    subEntry := fun _ _ _ => some (.dir "SUB"),
    clonesha := fun _ _ => "abc123",
    run := fun _ _ => 0, runOut := fun _ _ => "", runErr := fun _ _ => "" }

/-- Like `envOk` but every shell command exits 1 with captured stderr. -/
def envFail : Env :=
  { envOk with run := fun _ _ => 1, runErr := fun _ _ => "boom" }

/-- Like `envOk` but every non-empty subpath holds a regular file. -/
def envFile : Env :=
  { envOk with subEntry := fun _ _ _ => some (.file "data") }

/-- A module pinned by tag. -/
def mcTag : MCfg := { repository := some "https://x/lib.git", tag := some "v1.0" }

/-- A module pinned by hexsha. -/
def mcSha : MCfg :=
  { repository := some "https://x/lib.git", hexsha := some "deadbeef" }

/-- An unpinned module. -/
def mcPlain : MCfg := { repository := some "https://x/lib.git" }

/-- A module with both tag and hexsha set (invalid per the spec). -/
def mcBoth : MCfg :=
  { repository := some "r", tag := some "t", hexsha := some "h" }

/-- A single-file module extracted from subpath `p`. -/
def mcFile : MCfg := { repository := some "r", path := "p", isfile := true }

/-- A minimal ordinary module. -/
def mcM : MCfg := { repository := some "r" }

/-- Configuration with the single unpinned module `m`. -/
def cfgM : Config := { modules := some [("m", mcM)] }

/-- Configuration with the single single-file module `f`. -/
def cfgF : Config := { modules := some [("f", mcFile)] }

/-- State after one fetch pass of `cfgM` under `envOk` from the empty
state. -/
def fsM1 : FS :=
  { root := [("m", .dir "TREE")], gitModulesDir := false, quackModules := true,
    gitmodulesFile := false, gitignore := none, vcs := [],
    log := ["Cloning: r", "Executing 'rm .gitmodules' in ....",
      "Got stdout:\n", "Executing 'git rm --quiet --cached .gitmodules' in ....",
      "Got stdout:\n", "Cloned: m (abc123)"],
    calls := [("rm .gitmodules", "."),
      ("git rm --quiet --cached .gitmodules", ".")] }

/-- State after a second identical fetch pass from `fsM1`. -/
def fsM2 : FS :=
  { fsM1 with log := fsM1.log ++ fsM1.log, calls := fsM1.calls ++ fsM1.calls }

/-- State after running `modules:m` then `-modules:m` on `cfgM` under
`envOk` from the empty state. -/
def fsM7 : FS :=
  { root := [], gitModulesDir := false, quackModules := true,
    gitmodulesFile := false, gitignore := none, vcs := [],
    log := fsM1.log ++ ["Cleaned m"], calls := fsM1.calls }

/-- State after one fetch pass of `cfgF` under `envFile` from the empty
state. -/
def fsF1 : FS :=
  { root := [("f", .file "data")], gitModulesDir := false,
    quackModules := true, gitmodulesFile := false, gitignore := none,
    vcs := [],
    log := ["Cloning: r", "Executing 'rm .gitmodules' in ....",
      "Got stdout:\n", "Executing 'git rm --quiet --cached .gitmodules' in ....",
      "Got stdout:\n", "Cloned: f (abc123)"],
    calls := [("rm .gitmodules", "."),
      ("git rm --quiet --cached .gitmodules", ".")] }

/-! ## Environment-determined write of a vendoring pass

The entry a vendoring pass copies to a destination is a function of the
environment and the module configuration alone (the destination is removed
before the copy), which is what makes re-running a pass idempotent. -/

/-- The entry `vendorCopy` writes at `m.name` on a successful run in which
the copy branch is taken (`none` when the configured subpath is missing and
the module is skipped). -/
def oneWrite (env : Env) (m : Module) : Option FSEntry :=
  let src : Option FSEntry :=
    if m.path == "" then some (.dir (env.rootTree m.repository m.branch))
    else env.subEntry m.repository m.branch m.path
  if (m.path != "" && src.isSome) || m.path == "" then src else none

/-- The function `oneWrite` guarded by the tag/hexsha mutual-exclusion skip. -/
def guardWrite (env : Env) (m : Module) : Option FSEntry :=
  if truthy m.tag && truthy m.hexsha then none else oneWrite env m

/-- Destination entry written at key `k` by a whole vendoring pass over a
module list, determined by the environment, the name filter and the
configuration alone; later entries override earlier ones. -/
def passWrite (env : Env) (spec : Option String) :
    List (String × MCfg) → String → Option FSEntry
  | [], _ => none
  | (name, mc) :: rest, k =>
    match passWrite env spec rest k with
    | some v => some v
    | none =>
      match fromConfig name mc with
      | .error _ => none
      | .ok m =>
        if truthy spec && (spec != some name) then none
        else if name = k then guardWrite env m
        else none

/-! ## String lemmas -/

theorem toList_append (a b : String) :
    (a ++ b).toList = a.toList ++ b.toList :=
  String.data_append a b

theorem toList_eq_nil {s : String} (h : s.toList = []) : s = "" :=
  String.ext h

theorem listStartsWith_nil (l : List Char) : listStartsWith l [] = true := by
  cases l <;> rfl

theorem listStartsWith_append (p r : List Char) :
    listStartsWith (p ++ r) p = true := by
  induction p with
  | nil => exact listStartsWith_nil r
  | cons a as ih => simp [listStartsWith, ih]

theorem pyStartsWith_append (p r : String) :
    pyStartsWith (p ++ r) p = true := by
  unfold pyStartsWith
  rw [toList_append]
  exact listStartsWith_append _ _

theorem listStartsWith_cons_false {a b : Char} (as bs : List Char)
    (h : ¬ a = b) : listStartsWith (a :: as) (b :: bs) = false := by
  simp [listStartsWith, h]

theorem string_beq_false_of_head {s t : String} {a b : Char}
    {as bs : List Char} (hs : s.toList = a :: as) (ht : t.toList = b :: bs)
    (h : ¬ a = b) : (s == t) = false := by
  apply beq_eq_false_iff_ne.mpr
  intro he
  subst he
  rw [hs] at ht
  injection ht with h1 _
  exact h h1

theorem string_beq_false_of_length {s t : String} (h : ¬ sLen s = sLen t) :
    (s == t) = false := by
  apply beq_eq_false_iff_ne.mpr
  intro he
  subst he
  exact h rfl

theorem slen_append (a b : String) : sLen (a ++ b) = sLen a + sLen b := by
  unfold sLen
  rw [toList_append, List.length_append]

theorem pySlice_strip_head (c : Char) (r s : String)
    (hs : s.toList = c :: r.toList) : pySlice s 1 (sLen s) = r := by
  unfold pySlice sLen
  rw [hs]
  simp only [List.drop_succ_cons, List.drop_zero, List.length_cons,
    Nat.add_sub_cancel, List.take_length]
  exact String.asString_toList r

/-! ## Association-list lemmas -/

theorem find_setRootList (l : List (String × FSEntry)) (n k : String)
    (v : FSEntry) :
    ((setRootList l n v).find? (fun p => p.1 == k)).map Prod.snd
      = if n = k then some v
        else (l.find? (fun p => p.1 == k)).map Prod.snd := by
  induction l with
  | nil =>
    show (([(n, v)].find? (fun p => p.1 == k)).map Prod.snd) = _
    by_cases h : n = k
    · rw [List.find?_cons_of_pos _ (by simpa [beq_iff_eq] using h), if_pos h]
      rfl
    · rw [List.find?_cons_of_neg _ (by simpa [beq_iff_eq] using h), if_neg h]
  | cons hd tl ih =>
    obtain ⟨k', v'⟩ := hd
    by_cases h1 : k' = n
    · have hset : setRootList ((k', v') :: tl) n v = (n, v) :: tl := by
        simp [setRootList, h1]
      rw [hset]
      by_cases h2 : n = k
      · rw [List.find?_cons_of_pos _ (by simpa [beq_iff_eq] using h2),
          if_pos h2]
        rfl
      · have h2' : ¬ k' = k := fun hc => h2 (h1 ▸ hc)
        rw [List.find?_cons_of_neg _ (by simpa [beq_iff_eq] using h2),
          if_neg h2,
          List.find?_cons_of_neg _ (by simpa [beq_iff_eq] using h2')]
    · have hset : setRootList ((k', v') :: tl) n v
          = (k', v') :: setRootList tl n v := by
        simp [setRootList, h1]
      rw [hset]
      by_cases h2 : k' = k
      · have hnk : ¬ n = k := fun he => h1 (h2.trans he.symm)
        rw [List.find?_cons_of_pos _ (by simpa [beq_iff_eq] using h2),
          List.find?_cons_of_pos _ (by simpa [beq_iff_eq] using h2),
          if_neg hnk]
      · rw [List.find?_cons_of_neg _ (by simpa [beq_iff_eq] using h2),
          List.find?_cons_of_neg _ (by simpa [beq_iff_eq] using h2)]
        exact ih

theorem lookupRoot_setRoot (fs : FS) (n k : String) (v : FSEntry) :
    lookupRoot (setRoot fs n v) k = if n = k then some v else lookupRoot fs k :=
  find_setRootList fs.root n k v

theorem find_delRootList (l : List (String × FSEntry)) (n k : String) :
    ((l.filter (fun p => p.1 != n)).find? (fun p => p.1 == k)).map Prod.snd
      = if n = k then none
        else (l.find? (fun p => p.1 == k)).map Prod.snd := by
  induction l with
  | nil => by_cases h : n = k <;> simp [List.find?, h]
  | cons hd tl ih =>
    obtain ⟨k', v'⟩ := hd
    by_cases h1 : k' = n
    · have hf : ((k', v') :: tl).filter (fun p => p.1 != n)
          = tl.filter (fun p => p.1 != n) := by
        simp [List.filter_cons, h1]
      rw [hf, ih]
      by_cases h2 : n = k
      · rw [if_pos h2, if_pos h2]
      · have h2' : ¬ k' = k := fun hc => h2 (h1 ▸ hc)
        rw [if_neg h2, if_neg h2,
          List.find?_cons_of_neg _ (by simpa [beq_iff_eq] using h2')]
    · have hf : ((k', v') :: tl).filter (fun p => p.1 != n)
          = (k', v') :: tl.filter (fun p => p.1 != n) := by
        simp [List.filter_cons, bne_iff_ne.mpr h1]
      rw [hf]
      by_cases h2 : k' = k
      · have hnk : ¬ n = k := fun he => h1 (h2.trans he.symm)
        rw [List.find?_cons_of_pos _ (by simpa [beq_iff_eq] using h2),
          List.find?_cons_of_pos _ (by simpa [beq_iff_eq] using h2),
          if_neg hnk]
      · rw [List.find?_cons_of_neg _ (by simpa [beq_iff_eq] using h2),
          List.find?_cons_of_neg _ (by simpa [beq_iff_eq] using h2)]
        exact ih

theorem lookupRoot_delRoot (fs : FS) (n k : String) :
    lookupRoot (delRoot fs n) k = if n = k then none else lookupRoot fs k :=
  find_delRootList fs.root n k

theorem lookupRoot_pushLog (fs : FS) (m k : String) :
    lookupRoot (pushLog fs m) k = lookupRoot fs k := rfl

/-! ## Per-operation lemmas -/

theorem removeDir_ok {fs : FS} {n : String} {fs' : FS} {b : Bool}
    (h : removeDir fs n = .ok (fs', b)) :
    (∀ k, lookupRoot fs' k = if n = k then none else lookupRoot fs k)
    ∧ fs'.gitModulesDir = fs.gitModulesDir
    ∧ fs'.quackModules = fs.quackModules
    ∧ fs'.gitmodulesFile = fs.gitmodulesFile
    ∧ fs'.gitignore = fs.gitignore := by
  unfold removeDir at h
  cases hl : lookupRoot fs n with
  | none =>
    rw [hl] at h
    simp only [Except.ok.injEq, Prod.mk.injEq] at h
    obtain ⟨h1, _⟩ := h
    subst h1
    refine ⟨fun k => ?_, rfl, rfl, rfl, rfl⟩
    by_cases hk : n = k
    · rw [if_pos hk, ← hk]
      exact hl
    · rw [if_neg hk]
  | some e =>
    cases e with
    | file c => rw [hl] at h; simp at h
    | dir t =>
      rw [hl] at h
      simp only [Except.ok.injEq, Prod.mk.injEq] at h
      obtain ⟨h1, _⟩ := h
      subst h1
      exact ⟨fun k => lookupRoot_delRoot fs n k, rfl, rfl, rfl, rfl⟩

theorem removeDir_err {fs : FS} {n : String} {e : Err}
    (h : removeDir fs n = .error e) : e = .notADirectory := by
  unfold removeDir at h
  cases hl : lookupRoot fs n with
  | none => rw [hl] at h; simp at h
  | some v =>
    cases v with
    | file c =>
      rw [hl] at h
      simp only [Except.error.injEq] at h
      exact h.symm
    | dir t => rw [hl] at h; simp at h

theorem niceCall_ok {env : Env} {fs : FS} {c : String} {w : Option String}
    {fs' : FS} (h : niceCall env fs c w = .ok fs') :
    fs'.root = fs.root ∧ fs'.gitModulesDir = fs.gitModulesDir
    ∧ fs'.quackModules = fs.quackModules
    ∧ fs'.gitmodulesFile = fs.gitmodulesFile
    ∧ fs'.gitignore = fs.gitignore
    ∧ fs'.vcs = fs.vcs := by
  unfold niceCall at h
  dsimp only [] at h
  split at h
  · injection h with h1
    subst h1
    exact ⟨rfl, rfl, rfl, rfl, rfl, rfl⟩
  · split at h <;> simp at h

theorem niceCall_fail {env : Env} {fs : FS} {c : String} {w : Option String}
    (h : ¬ env.run c (w.getD env.cwd) = 0) :
    niceCall env fs c w = .error .typeError := by
  unfold niceCall
  rw [if_neg h]
  have hc : pctCount "Command failed with status %d, stderr=\n%s".toList = 2 :=
    rfl
  rw [hc]
  simp

theorem resolveCheckout_ok {m : Module} {sub : String} {fs fs' : FS}
    {t : String} (h : resolveCheckout m sub fs = .ok (fs', t)) :
    fs' = fs ∧ t = sub ∧ truthy m.tag = false ∧ truthy m.hexsha = false := by
  unfold resolveCheckout at h
  split at h
  next htag => simp at h
  next htag =>
    split at h
    next hhex => simp at h
    next hhex =>
      simp only [Except.ok.injEq, Prod.mk.injEq] at h
      obtain ⟨h1, h2⟩ := h
      simp only [Bool.not_eq_true] at htag hhex
      exact ⟨h1.symm, h2.symm, htag, hhex⟩

theorem gitmodulesCleanup_ok {env : Env} {fs fs' : FS}
    (h : gitmodulesCleanup env fs = .ok fs') :
    fs'.root = fs.root ∧ fs'.gitModulesDir = fs.gitModulesDir
    ∧ fs'.quackModules = fs.quackModules
    ∧ fs'.gitignore = fs.gitignore := by
  unfold gitmodulesCleanup at h
  split at h
  · cases hnc1 : niceCall env fs "rm .gitmodules" none with
    | error e =>
      rw [hnc1] at h
      simp [Bind.bind, Except.bind] at h
    | ok fs1 =>
      rw [hnc1] at h
      simp only [Bind.bind, Except.bind] at h
      have p1 := niceCall_ok hnc1
      have p2 := niceCall_ok h
      obtain ⟨q1, q2, q3, _, q5, _⟩ := p1
      obtain ⟨r1, r2, r3, _, r5, _⟩ := p2
      refine ⟨?_, ?_, ?_, ?_⟩
      · rw [r1]; exact q1
      · rw [r2]; exact q2
      · rw [r3]; exact q3
      · rw [r5]; exact q5
  · injection h with h1
    subst h1
    exact ⟨rfl, rfl, rfl, rfl⟩

theorem vendorCopy_ok {env : Env} {fs : FS} {m : Module} {fs' : FS}
    (h : vendorCopy env fs m = .ok fs') :
    (∀ k, lookupRoot fs' k =
      match oneWrite env m with
      | some v => if m.name = k then some v else lookupRoot fs k
      | none => lookupRoot fs k)
    ∧ fs'.gitModulesDir = fs.gitModulesDir
    ∧ fs'.quackModules = fs.quackModules
    ∧ fs'.gitmodulesFile = fs.gitmodulesFile
    ∧ fs'.gitignore = fs.gitignore := by
  unfold vendorCopy at h
  unfold oneWrite
  dsimp only [] at h ⊢
  generalize hs : (if m.path == "" then
      some (FSEntry.dir (env.rootTree m.repository m.branch))
    else env.subEntry m.repository m.branch m.path) = src at h ⊢
  by_cases hcond : ((m.path != "" && src.isSome) || (m.path == "")) = true
  · rw [if_pos hcond] at h
    rw [if_pos hcond]
    by_cases hf : m.isfile = true
    · rw [if_pos hf] at h
      cases hsv : src with
      | none => rw [hsv] at h; simp at h
      | some e =>
        cases e with
        | dir t => rw [hsv] at h; simp at h
        | file c =>
          rw [hsv] at h
          cases hl : lookupRoot fs m.name with
          | none =>
            simp only [hl] at h
            injection h with h1
            subst h1
            refine ⟨fun k => ?_, rfl, rfl, rfl, rfl⟩
            dsimp only
            rw [lookupRoot_setRoot]
          | some e0 =>
            cases e0 with
            | dir d0 =>
              simp only [hl] at h
              simp at h
            | file c0 =>
              simp only [hl] at h
              rw [lookupRoot_delRoot, if_pos rfl] at h
              injection h with h1
              subst h1
              refine ⟨fun k => ?_, rfl, rfl, rfl, rfl⟩
              dsimp only
              rw [lookupRoot_setRoot]
              by_cases hk : m.name = k
              · rw [if_pos hk, if_pos hk]
              · rw [if_neg hk, if_neg hk, lookupRoot_delRoot, if_neg hk]
    · rw [if_neg hf] at h
      cases hrd : removeDir fs m.name with
      | error e =>
        rw [hrd] at h
        simp [Bind.bind, Except.bind] at h
      | ok p =>
        obtain ⟨fs2, b⟩ := p
        rw [hrd] at h
        simp only [Bind.bind, Except.bind] at h
        obtain ⟨hrk, hgm, hqm, hgf, hgi⟩ := removeDir_ok hrd
        cases hsv : src with
        | none => rw [hsv] at h; simp at h
        | some e =>
          cases e with
          | file c => rw [hsv] at h; simp at h
          | dir t =>
            rw [hsv] at h
            rw [hrk m.name, if_pos rfl] at h
            injection h with h1
            subst h1
            refine ⟨fun k => ?_, hgm, hqm, hgf, hgi⟩
            dsimp only
            rw [lookupRoot_setRoot]
            by_cases hk : m.name = k
            · rw [if_pos hk, if_pos hk]
            · rw [if_neg hk, if_neg hk, hrk k, if_neg hk]
  · rw [if_neg hcond] at h
    rw [if_neg hcond]
    injection h with h1
    subst h1
    exact ⟨fun k => rfl, rfl, rfl, rfl, rfl⟩

theorem gitignoreAppend_fst (cfg : Config) (fs : FS) (ign : List String)
    (name : String) :
    (gitignoreAppend cfg fs ign name).1.root = fs.root
    ∧ (gitignoreAppend cfg fs ign name).1.gitModulesDir = fs.gitModulesDir
    ∧ (gitignoreAppend cfg fs ign name).1.quackModules = fs.quackModules := by
  unfold gitignoreAppend
  split
  · split
    · exact ⟨rfl, rfl, rfl⟩
    · exact ⟨rfl, rfl, rfl⟩
  · exact ⟨rfl, rfl, rfl⟩

theorem lookupRoot_eq_of_root {a b : FS} (h : a.root = b.root) (k : String) :
    lookupRoot a k = lookupRoot b k := by
  unfold lookupRoot
  rw [h]

theorem fetchOne_ok {env : Env} {cfg : Config} {fs : FS} {ign : List String}
    {m : Module} {fs' : FS} {ign' : List String}
    (h : fetchOne env cfg fs ign m = .ok (fs', ign')) :
    (∀ k, lookupRoot fs' k =
      match guardWrite env m with
      | some v => if m.name = k then some v else lookupRoot fs k
      | none => lookupRoot fs k)
    ∧ fs'.gitModulesDir = fs.gitModulesDir
    ∧ fs'.quackModules = fs.quackModules := by
  unfold fetchOne at h
  unfold guardWrite
  split at h
  next hg =>
    rw [if_pos hg]
    simp only [Except.ok.injEq, Prod.mk.injEq] at h
    obtain ⟨h1, _⟩ := h
    subst h1
    exact ⟨fun k => rfl, rfl, rfl⟩
  next hg =>
    rw [if_neg hg]
    simp only [Bind.bind, Except.bind] at h
    split at h
    next heq => simp at h
    next p heq =>
      obtain ⟨fsA, target⟩ := p
      obtain ⟨hA, _, _, _⟩ := resolveCheckout_ok heq
      subst hA
      dsimp only at h
      split at h
      next heq2 => simp at h
      next fsB heq2 =>
        obtain ⟨hBk, hBgm, hBqm, _, _⟩ := vendorCopy_ok heq2
        split at h
        next heq3 => simp at h
        next fsC heq3 =>
          obtain ⟨hCroot, hCgm, hCqm, _⟩ := gitmodulesCleanup_ok heq3
          injection h with h1
          have h2 : (gitignoreAppend cfg
              (pushLog fsC ("Cloned: " ++ m.name ++ " (" ++ target ++ ")"))
              ign m.name).1 = fs' := congrArg Prod.fst h1
          subst h2
          obtain ⟨gr, ggm, gqm⟩ := gitignoreAppend_fst cfg
            (pushLog fsC ("Cloned: " ++ m.name ++ " (" ++ target ++ ")"))
            ign m.name
          refine ⟨fun k => ?_, ?_, ?_⟩
          · exact (lookupRoot_eq_of_root gr k).trans
              ((lookupRoot_eq_of_root hCroot k).trans (hBk k))
          · exact ggm.trans (hCgm.trans hBgm)
          · exact gqm.trans (hCqm.trans hBqm)

theorem fromConfig_name {name : String} {mc : MCfg} {m : Module}
    (h : fromConfig name mc = .ok m) : m.name = name := by
  unfold fromConfig at h
  cases hr : mc.repository with
  | none => rw [hr] at h; simp at h
  | some r =>
    rw [hr] at h
    injection h with h1
    subst h1
    rfl

theorem passWrite_cons (env : Env) (spec : Option String) (name : String)
    (mc : MCfg) (rest : List (String × MCfg)) (k : String) :
    passWrite env spec ((name, mc) :: rest) k
      = match passWrite env spec rest k with
        | some v => some v
        | none =>
          match fromConfig name mc with
          | .error _ => none
          | .ok m =>
            if truthy spec && (spec != some name) then none
            else if name = k then guardWrite env m
            else none := rfl

theorem passWrite_cons_skip {env : Env} {spec : Option String} {name : String}
    {mc : MCfg} {rest : List (String × MCfg)} {k : String}
    (hfil : (truthy spec && (spec != some name)) = true) :
    passWrite env spec ((name, mc) :: rest) k = passWrite env spec rest k := by
  rw [passWrite_cons]
  cases hpw : passWrite env spec rest k
  · dsimp only
    cases hfc : fromConfig name mc
    · rfl
    · simp [hfil]
  · rfl

theorem passWrite_cons_step {env : Env} {spec : Option String} {name : String}
    {mc : MCfg} {rest : List (String × MCfg)} {k : String} {m : Module}
    (hfc : fromConfig name mc = .ok m)
    (hfil : (truthy spec && (spec != some name)) = false) :
    passWrite env spec ((name, mc) :: rest) k
      = match passWrite env spec rest k with
        | some v => some v
        | none => if name = k then guardWrite env m else none := by
  rw [passWrite_cons, hfc]
  cases hpw : passWrite env spec rest k
  · dsimp only
    simp [hfil]
  · rfl

theorem fetchLoop_ok {env : Env} {cfg : Config} {spec : Option String}
    (ms : List (String × MCfg)) :
    ∀ (fs : FS) (ign : List String) (fs' : FS),
    fetchLoop env cfg spec ms fs ign = .ok fs' →
    (∀ k, lookupRoot fs' k =
      match passWrite env spec ms k with
      | some v => some v
      | none => lookupRoot fs k)
    ∧ fs'.gitModulesDir = fs.gitModulesDir
    ∧ fs'.quackModules = fs.quackModules := by
  induction ms with
  | nil =>
    intro fs ign fs' h
    unfold fetchLoop at h
    injection h with h1
    subst h1
    exact ⟨fun k => rfl, rfl, rfl⟩
  | cons hd rest ih =>
    intro fs ign fs' h
    obtain ⟨name, mc⟩ := hd
    unfold fetchLoop at h
    simp only [Bind.bind, Except.bind] at h
    cases hfc : fromConfig name mc with
    | error e => rw [hfc] at h; simp at h
    | ok m =>
      rw [hfc] at h
      dsimp only at h
      have hmn : m.name = name := fromConfig_name hfc
      by_cases hfil : (truthy spec && (spec != some name)) = true
      · rw [if_pos hfil] at h
        obtain ⟨hk, hgm, hqm⟩ := ih fs ign fs' h
        refine ⟨fun k => ?_, hgm, hqm⟩
        rw [hk k, passWrite_cons_skip hfil]
      · rw [if_neg hfil] at h
        have hfil' : (truthy spec && (spec != some name)) = false :=
          Bool.not_eq_true _ ▸ hfil
        cases hfo : fetchOne env cfg fs ign m with
        | error e => rw [hfo] at h; simp at h
        | ok p =>
          obtain ⟨fsM, ignM⟩ := p
          rw [hfo] at h
          dsimp only at h
          obtain ⟨hMk, hMgm, hMqm⟩ := fetchOne_ok hfo
          obtain ⟨hk, hgm, hqm⟩ := ih fsM ignM fs' h
          refine ⟨fun k => ?_, hgm.trans hMgm, hqm.trans hMqm⟩
          rw [hk k, passWrite_cons_step hfc hfil']
          cases hpw : passWrite env spec rest k with
          | some v => rfl
          | none =>
            dsimp only
            rw [hMk k]
            by_cases hnk : name = k
            · rw [if_pos hnk]
              cases hgw : guardWrite env m with
              | none => rfl
              | some v =>
                dsimp only
                rw [if_pos (hmn.trans hnk)]
            · rw [if_neg hnk]
              cases hgw : guardWrite env m with
              | none => rfl
              | some v =>
                dsimp only
                rw [if_neg (fun hc => hnk (hmn ▸ hc))]

theorem fetchModules_ok {env : Env} {cfg : Config} {spec : Option String}
    {fs fs' : FS} {ms : List (String × MCfg)}
    (hms : cfg.modules = some ms) (hne : ¬ ms = [])
    (h : fetchModules env cfg spec fs = .ok fs') :
    fs'.gitModulesDir = false ∧ fs'.quackModules = true
    ∧ (∀ k, lookupRoot fs' k =
      match passWrite env spec ms k with
      | some v => some v
      | none => lookupRoot fs k) := by
  unfold fetchModules at h
  rw [hms] at h
  cases ms with
  | nil => exact absurd rfl hne
  | cons hd tl =>
    dsimp only at h
    obtain ⟨hk, hgm, hqm⟩ := fetchLoop_ok _ _ _ _ h
    exact ⟨hgm, hqm, fun k => hk k⟩

theorem cleanLoop_preserve_none {spec : Option String}
    (ms : List (String × MCfg)) :
    ∀ (fs fs' : FS) (X : String),
    cleanLoop spec ms fs = .ok fs' →
    lookupRoot fs X = none → lookupRoot fs' X = none := by
  induction ms with
  | nil =>
    intro fs fs' X h hX
    unfold cleanLoop at h
    injection h with h1
    subst h1
    exact hX
  | cons hd rest ih =>
    intro fs fs' X h hX
    obtain ⟨name, mc⟩ := hd
    unfold cleanLoop at h
    split at h
    · exact ih fs fs' X h hX
    · cases hrd : removeDir fs name with
      | error e => rw [hrd] at h; simp at h
      | ok p =>
        obtain ⟨fs2, b⟩ := p
        rw [hrd] at h
        dsimp only at h
        obtain ⟨hrk, _, _, _, _⟩ := removeDir_ok hrd
        have hX2 : lookupRoot fs2 X = none := by
          rw [hrk X]
          by_cases hnx : name = X
          · rw [if_pos hnx]
          · rw [if_neg hnx]; exact hX
        have hX3 : lookupRoot
            (if b then pushLog fs2 ("Cleaned " ++ name) else fs2) X = none := by
          cases b <;> simpa [lookupRoot_pushLog] using hX2
        exact ih _ fs' X h hX3

theorem cleanLoop_removes {spec : Option String}
    (ms : List (String × MCfg)) :
    ∀ (fs fs' : FS) (X : String) (mc : MCfg),
    (X, mc) ∈ ms →
    (truthy spec && (spec != some X)) = false →
    cleanLoop spec ms fs = .ok fs' →
    lookupRoot fs' X = none := by
  induction ms with
  | nil =>
    intro fs fs' X mc hmem
    simp at hmem
  | cons hd rest ih =>
    intro fs fs' X mc hmem hfil h
    obtain ⟨name, mc0⟩ := hd
    unfold cleanLoop at h
    rcases List.mem_cons.mp hmem with hhd | htl
    · rw [Prod.mk.injEq] at hhd
      obtain ⟨h1, _⟩ := hhd
      subst h1
      rw [hfil] at h
      simp only [Bool.false_eq_true, if_false] at h
      cases hrd : removeDir fs X with
      | error e => rw [hrd] at h; simp at h
      | ok p =>
        obtain ⟨fs2, b⟩ := p
        rw [hrd] at h
        dsimp only at h
        obtain ⟨hrk, _, _, _, _⟩ := removeDir_ok hrd
        have hX2 : lookupRoot fs2 X = none := by
          rw [hrk X, if_pos rfl]
        have hX3 : lookupRoot
            (if b then pushLog fs2 ("Cleaned " ++ X) else fs2) X = none := by
          cases b <;> simpa [lookupRoot_pushLog] using hX2
        exact cleanLoop_preserve_none rest _ fs' X h hX3
    · split at h
      · exact ih fs fs' X mc htl hfil h
      · cases hrd : removeDir fs name with
        | error e => rw [hrd] at h; simp at h
        | ok p =>
          obtain ⟨fs2, b⟩ := p
          rw [hrd] at h
          dsimp only at h
          exact ih _ fs' X mc htl hfil h

theorem cleanLoop_err {spec : Option String} (ms : List (String × MCfg)) :
    ∀ (fs : FS) (e : Err),
    cleanLoop spec ms fs = .error e → e = .notADirectory := by
  induction ms with
  | nil =>
    intro fs e h
    unfold cleanLoop at h
    simp at h
  | cons hd rest ih =>
    intro fs e h
    obtain ⟨name, mc⟩ := hd
    unfold cleanLoop at h
    split at h
    · exact ih fs e h
    · cases hrd : removeDir fs name with
      | error e0 =>
        rw [hrd] at h
        injection h with h1
        exact h1 ▸ removeDir_err hrd
      | ok p =>
        obtain ⟨fs2, b⟩ := p
        rw [hrd] at h
        dsimp only at h
        exact ih _ e h

theorem cleanLoop_ok_no_file {spec : Option String}
    (ms : List (String × MCfg)) :
    ∀ (fs fs' : FS) (X : String) (mc : MCfg) (c : String),
    (X, mc) ∈ ms →
    (truthy spec && (spec != some X)) = false →
    lookupRoot fs X = some (.file c) →
    cleanLoop spec ms fs = .ok fs' → False := by
  induction ms with
  | nil =>
    intro fs fs' X mc c hmem
    simp at hmem
  | cons hd rest ih =>
    intro fs fs' X mc c hmem hfil hX h
    obtain ⟨name, mc0⟩ := hd
    unfold cleanLoop at h
    rcases List.mem_cons.mp hmem with hhd | htl
    · rw [Prod.mk.injEq] at hhd
      obtain ⟨h1, _⟩ := hhd
      subst h1
      rw [hfil] at h
      simp only [Bool.false_eq_true, if_false] at h
      unfold removeDir at h
      rw [hX] at h
      simp at h
    · split at h
      · exact ih fs fs' X mc c htl hfil hX h
      · cases hrd : removeDir fs name with
        | error e => rw [hrd] at h; simp at h
        | ok p =>
          obtain ⟨fs2, b⟩ := p
          rw [hrd] at h
          dsimp only at h
          by_cases hnx : name = X
          · rw [hnx] at hrd
            unfold removeDir at hrd
            rw [hX] at hrd
            simp at hrd
          · obtain ⟨hrk, _, _, _, _⟩ := removeDir_ok hrd
            have hX2 : lookupRoot
                (if b then pushLog fs2 ("Cleaned " ++ name) else fs2) X
                = some (.file c) := by
              have : lookupRoot fs2 X = some (.file c) := by
                rw [hrk X, if_neg hnx]; exact hX
              cases b <;> simpa [lookupRoot_pushLog] using this
            exact ih _ fs' X mc c htl hfil hX2 h

theorem cleanModules_removes {cfg : Config} {spec : Option String}
    {fs fs' : FS} {X : String} {mc : MCfg} {ms : List (String × MCfg)}
    (hms : cfg.modules = some ms) (hmem : (X, mc) ∈ ms)
    (hfil : (truthy spec && (spec != some X)) = false)
    (h : cleanModules cfg spec fs = .ok fs') : lookupRoot fs' X = none := by
  unfold cleanModules at h
  rw [hms] at h
  exact cleanLoop_removes ms fs fs' X mc hmem hfil h

theorem cleanModules_file_err {cfg : Config} {spec : Option String} {fs : FS}
    {X : String} {mc : MCfg} {ms : List (String × MCfg)} {c : String}
    (hms : cfg.modules = some ms) (hmem : (X, mc) ∈ ms)
    (hfil : (truthy spec && (spec != some X)) = false)
    (hX : lookupRoot fs X = some (.file c)) :
    cleanModules cfg spec fs = .error .notADirectory := by
  unfold cleanModules
  rw [hms]
  dsimp only
  cases hres : cleanLoop spec ms fs with
  | ok fs' => exact absurd hres (fun hr =>
      cleanLoop_ok_no_file ms fs fs' X mc c hmem hfil hX hr)
  | error e => rw [cleanLoop_err ms fs e hres]

/-! ## Counting lemmas for the profile executor -/

theorem depsLoop_count {env : Env} (l : List (String × String)) :
    ∀ (fs : FS) (n : Nat) (fs' : FS) (n' : Nat),
    depsLoop env l fs n = .ok (fs', n') → n' = n + l.length := by
  induction l with
  | nil =>
    intro fs n fs' n' h
    unfold depsLoop at h
    simp only [Except.ok.injEq, Prod.mk.injEq] at h
    obtain ⟨_, h2⟩ := h
    subst h2
    simp
  | cons d rest ih =>
    intro fs n fs' n' h
    unfold depsLoop at h
    cases hq : runNestedQuack env fs d with
    | error e => rw [hq] at h; simp at h
    | ok fs2 =>
      rw [hq] at h
      have := ih fs2 (n + 1) fs' n' h
      simp only [List.length_cons]
      omega

theorem taskLoop_stats {env : Env} {cfg : Config} (l : List String) :
    ∀ (fs : FS) (s : Stats) (fs' : FS) (s' : Stats),
    taskLoop env cfg l fs s = .ok (fs', s') →
    s'.tasks = s.tasks + l.length ∧ s'.dependencies = s.dependencies := by
  induction l with
  | nil =>
    intro fs s fs' s' h
    unfold taskLoop at h
    simp only [Except.ok.injEq, Prod.mk.injEq] at h
    obtain ⟨_, h2⟩ := h
    subst h2
    simp
  | cons cmd rest ih =>
    intro fs s fs' s' h
    unfold taskLoop at h
    cases hstep : taskStep env cfg fs cmd with
    | error e => rw [hstep] at h; simp at h
    | ok fs2 =>
      rw [hstep] at h
      obtain ⟨h1, h2⟩ := ih fs2 _ fs' s' h
      constructor
      · rw [h1]
        simp only [List.length_cons]
        omega
      · exact h2

theorem taskLoop_append {env : Env} {cfg : Config}
    (l₁ : List String) :
    ∀ (l₂ : List String) (fs : FS) (s : Stats),
    taskLoop env cfg (l₁ ++ l₂) fs s
      = match taskLoop env cfg l₁ fs s with
        | .error e => .error e
        | .ok (fs', s') => taskLoop env cfg l₂ fs' s' := by
  induction l₁ with
  | nil =>
    intro l₂ fs s
    rfl
  | cons cmd rest ih =>
    intro l₂ fs s
    have e1 : taskLoop env cfg ((cmd :: rest) ++ l₂) fs s
        = match taskStep env cfg fs cmd with
          | .error e => .error e
          | .ok fs2 => taskLoop env cfg (rest ++ l₂) fs2
              { tasks := s.tasks + 1, dependencies := s.dependencies } := rfl
    have e2 : taskLoop env cfg (cmd :: rest) fs s
        = match taskStep env cfg fs cmd with
          | .error e => .error e
          | .ok fs2 => taskLoop env cfg rest fs2
              { tasks := s.tasks + 1, dependencies := s.dependencies } := rfl
    rw [e1, e2]
    cases hstep : taskStep env cfg fs cmd with
    | error e => rfl
    | ok fs2 =>
      exact ih l₂ fs2 { tasks := s.tasks + 1, dependencies := s.dependencies }

theorem taskLoop_nil (env : Env) (cfg : Config) (fs : FS) (s : Stats) :
    taskLoop env cfg [] fs s = .ok (fs, s) := rfl

theorem taskLoop_cons (env : Env) (cfg : Config) (cmd : String)
    (rest : List String) (fs : FS) (s : Stats) :
    taskLoop env cfg (cmd :: rest) fs s
      = match taskStep env cfg fs cmd with
        | .error e => .error e
        | .ok fs2 => taskLoop env cfg rest fs2
            { tasks := s.tasks + 1, dependencies := s.dependencies } := rfl

theorem niceCall_calls {env : Env} {fs : FS} {c : String} {w : Option String}
    {fs' : FS} (h : niceCall env fs c w = .ok fs') :
    fs'.calls = fs.calls ++ [(c, w.getD env.cwd)] := by
  unfold niceCall at h
  dsimp only at h
  split at h
  · injection h with h1
    subst h1
    rfl
  · split at h <;> simp at h

/-! ## Claim theorems -/

/-- Claim C1 (code-bug evidence).  The claim says the checkout target is
resolved from the module's own fields (`tags/<module.tag>`, else the module's
`hexsha`, else the clone revision) and reported as `Cloned: <name>
(<target>)`.  The source instead interpolates the free variables
`tag`/`hexsha` into the checkout command, so a pass over a tag-pinned (resp.
hexsha-pinned) module aborts with `NameError` before any checkout or report;
only the unpinned branch resolves and reports the target as claimed. -/
theorem checkout_pin_raises_name_error :
    fetchModules envOk { modules := some [("lib", mcTag)] } none {}
      = .error (.nameError "tag")
    ∧ fetchModules envOk { modules := some [("lib", mcSha)] } none {}
      = .error (.nameError "hexsha")
    ∧ ∃ fs, fetchModules envOk { modules := some [("lib", mcPlain)] } none {}
        = .ok fs ∧ "Cloned: lib (abc123)" ∈ fs.log :=
  ⟨rfl, rfl, _, rfl, by decide⟩

/-- Claim C4, counterexample.  The claim says that for the dependency entry
`("quack", "sub/quack:build")` the config-file-name argument is left at its
default (`quack.yaml`): in fact the dispatcher passes `-y quack` explicitly
(the text between the last `/` and the first `:`), which differs from the
default. -/
theorem nested_quack_yaml_arg_counterexample :
    nestedQuackParse "." "sub/quack:build"
      = ("sub", ["quack", "-p", "build", "-y", "quack"])
    ∧ "-y" ∈ (nestedQuackParse "." "sub/quack:build").2
    ∧ ¬ "quack" = "quack.yaml" :=
  ⟨rfl, by decide, by decide⟩

/-- Claim C9.  When the configuration has no `modules` mapping, the fetch
form of a task prints `No modules found.` and returns normally, while the
negated (clean) form fails with `AttributeError` because `_clean_modules`
iterates `config.get('modules').items()` unconditionally. -/
theorem missing_modules_fetch_clean_asymmetry (env : Env) (cfg : Config)
    (fs : FS) (hm : cfg.modules = none) :
    taskStep env cfg fs "modules" = .ok (pushLog fs "No modules found.")
    ∧ taskStep env cfg fs "-modules" = .error .attributeError := by
  constructor
  · have h1 : taskStep env cfg fs "modules" = fetchModules env cfg none fs :=
      rfl
    rw [h1]
    unfold fetchModules
    rw [hm]
  · have h2 : taskStep env cfg fs "-modules" = cleanModules cfg none fs := rfl
    rw [h2]
    unfold cleanModules
    rw [hm]

theorem missing_modules_fetch_clean_asymmetry_witness :
    taskStep envOk { modules := none } {} "modules"
      = .ok (pushLog {} "No modules found.")
    ∧ taskStep envOk { modules := none } {} "-modules"
      = .error .attributeError :=
  missing_modules_fetch_clean_asymmetry envOk { modules := none } {} rfl

/-- Claim C8.  The task interpreter reads `command[0]` unconditionally, so a
profile whose task list contains the empty string fails with `IndexError` at
that task (whatever tasks follow), while classification succeeds on every
non-empty task string. -/
theorem empty_task_string_fails (env : Env) (cfg : Config) (fs : FS)
    (s : Stats) (pre rest : List String) (fs₁ : FS) (s₁ : Stats)
    (hpre : taskLoop env cfg pre fs s = .ok (fs₁, s₁)) :
    taskLoop env cfg (pre ++ "" :: rest) fs s = .error .indexError
    ∧ ∀ cmd : String, ¬ cmd = "" → ∃ p, classifyTask cmd = .ok p := by
  constructor
  · rw [taskLoop_append pre ("" :: rest) fs s, hpre]
    dsimp only
    rw [taskLoop_cons]
    rw [show taskStep env cfg fs₁ "" = .error .indexError from rfl]
  · intro cmd hne
    cases hc : cmd.toList with
    | nil => exact absurd (toList_eq_nil hc) hne
    | cons a as =>
      refine ⟨(a == '-', if a == '-' then pySlice cmd 1 (sLen cmd) else cmd),
        ?_⟩
      unfold classifyTask
      rw [hc]

theorem empty_task_string_fails_witness :
    taskLoop envOk {} ([] ++ "" :: []) ({} : FS) {} = .error .indexError
    ∧ ∃ p, classifyTask "x" = .ok p :=
  ⟨(empty_task_string_fails envOk {} {} {} [] [] {} {} rfl).1,
    (empty_task_string_fails envOk {} {} {} [] [] {} {} rfl).2 "x"
      (by decide)⟩

/-- Claim C5 (code-bug evidence).  The claim says a failing external command
prints the captured error output and terminates the run with non-zero status,
with no further tasks executing.  The run does abort (the same error results
for every continuation of the task list, so no later task runs), but instead
of printing the captured stderr the source raises `TypeError` while
formatting the failure message (`"...%d...%s" % stderr` applies two
conversion specifiers to the single value `stderr`), so the captured error
output is never printed. -/
theorem failed_command_aborts (env : Env) (cfg : Config) (fs : FS)
    (c : String)
    (hfail : ¬ env.run (pyReplace ("cmd:" ++ c) "cmd:" "") env.cwd = 0) :
    niceCall env fs (pyReplace ("cmd:" ++ c) "cmd:" "") none
      = .error .typeError
    ∧ ∀ (rest : List String) (s : Stats),
        taskLoop env cfg (("cmd:" ++ c) :: rest) fs s = .error .typeError := by
  have hnc : niceCall env fs (pyReplace ("cmd:" ++ c) "cmd:" "") none
      = .error .typeError := niceCall_fail hfail
  have htl : ("cmd:" ++ c).toList = 'c' :: 'm' :: 'd' :: ':' :: c.toList := by
    rw [toList_append]
    rfl
  have hcl : classifyTask ("cmd:" ++ c) = .ok (false, "cmd:" ++ c) := by
    unfold classifyTask
    rw [htl]
    rfl
  have hmod : pyStartsWith ("cmd:" ++ c) "modules:" = false := by
    unfold pyStartsWith
    rw [toList_append]
    rfl
  have hquack : pyStartsWith ("cmd:" ++ c) "quack:" = false := by
    unfold pyStartsWith
    rw [toList_append]
    rfl
  have hcmd : pyStartsWith ("cmd:" ++ c) "cmd:" = true :=
    pyStartsWith_append "cmd:" c
  have hne : (("cmd:" ++ c) == "modules") = false :=
    string_beq_false_of_head htl
      (rfl : "modules".toList = 'm' :: "odules".toList) (by decide)
  have hstep : taskStep env cfg fs ("cmd:" ++ c) = .error .typeError := by
    unfold taskStep
    rw [hcl]
    simp only [Bind.bind, Except.bind]
    simp only [hmod, hne, hquack, hcmd, Bool.false_or, Bool.false_and, bne,
      Bool.not_false, Bool.and_true, Bool.and_false, Bool.false_eq_true,
      Bool.or_false, Bool.not_true, if_false, if_true]
    rw [hnc]
  refine ⟨hnc, fun rest s => ?_⟩
  rw [taskLoop_cons, hstep]

theorem failed_command_aborts_witness :
    niceCall envFail {} (pyReplace ("cmd:" ++ "boom") "cmd:" "") none
      = .error .typeError
    ∧ taskLoop envFail {} (("cmd:" ++ "boom") :: ["cmd:next"]) {} {}
      = .error .typeError :=
  ⟨(failed_command_aborts envFail {} {} "boom" (by decide)).1,
    (failed_command_aborts envFail {} {} "boom" (by decide)).2 ["cmd:next"] {}⟩

/-- Claim C2.  A module with both `tag` and `hexsha` truthy is skipped
entirely by the vendoring pass: the loop iteration only prints the
`Cannot be both tag & hexsha.` diagnostic (no submodule checkout, no copy,
the state is otherwise untouched) and continues with the remaining
modules. -/
theorem tag_hexsha_module_skipped (env : Env) (cfg : Config)
    (spec : Option String) (rest : List (String × MCfg)) (fs : FS)
    (ign : List String) (name : String) (mc : MCfg) (r : String)
    (hrepo : mc.repository = some r)
    (hfil : (truthy spec && (spec != some name)) = false)
    (htag : truthy mc.tag = true) (hhex : truthy mc.hexsha = true) :
    fetchLoop env cfg spec ((name, mc) :: rest) fs ign
      = fetchLoop env cfg spec rest
          (pushLog fs (name ++ ": Cannot be both tag & hexsha.")) ign := by
  conv_lhs => rw [fetchLoop]
  simp only [Bind.bind, Except.bind]
  rw [show fromConfig name mc
      = .ok ⟨name, r, mc.path, mc.branch, mc.hexsha, mc.tag, mc.isfile⟩ from by
    unfold fromConfig
    rw [hrepo]]
  dsimp only
  rw [hfil]
  simp only [Bool.false_eq_true, if_false]
  rw [show fetchOne env cfg fs ign
        ⟨name, r, mc.path, mc.branch, mc.hexsha, mc.tag, mc.isfile⟩
      = .ok (pushLog fs (name ++ ": Cannot be both tag & hexsha."), ign) from by
    unfold fetchOne
    dsimp only
    rw [htag, hhex]
    rfl]

theorem tag_hexsha_module_skipped_witness :
    fetchLoop envOk {} none [("m", mcBoth)] {} []
      = fetchLoop envOk {} none []
          (pushLog {} "m: Cannot be both tag & hexsha.") [] :=
  tag_hexsha_module_skipped envOk {} none [] {} [] "m" mcBoth "r"
    rfl rfl rfl rfl

/-- Claim C3.  For a profile whose `dependencies` is a mapping with `k`
entries and whose `tasks` is a list of `n` task strings, whenever the run
returns statistics they are exactly `tasks = n`, `dependencies = k`; and when
`n = 0` (and the dependency loop completed) the executor reports
`No tasks found.` and returns `tasks = 0`, `dependencies = k`. -/
theorem run_tasks_counters_exact (env : Env) (cfg : Config) (fs : FS)
    (p : Profile) (dl : List (String × String))
    (hd : p.dependencies = some dl) :
    (∀ (fs' : FS) (s : Stats), runTasks env cfg p fs = .ok (fs', s) →
      s.tasks = p.tasks.length ∧ s.dependencies = dl.length)
    ∧ (p.tasks = [] → ∀ (fs₁ : FS) (k : Nat),
        depsLoop env dl fs 0 = .ok (fs₁, k) →
        runTasks env cfg p fs
          = .ok (pushLog fs₁ "No tasks found.",
              { tasks := 0, dependencies := k })
          ∧ k = dl.length) := by
  constructor
  · intro fs' s h
    unfold runTasks at h
    rw [hd] at h
    dsimp only at h
    cases hdl : depsLoop env dl fs 0 with
    | error e => rw [hdl] at h; simp at h
    | ok q =>
      obtain ⟨fs₁, n⟩ := q
      rw [hdl] at h
      dsimp only at h
      have hn : n = dl.length := by
        have := depsLoop_count dl fs 0 fs₁ n hdl
        omega
      by_cases ht : p.tasks.isEmpty = true
      · rw [if_pos ht] at h
        simp only [Except.ok.injEq, Prod.mk.injEq] at h
        obtain ⟨_, h2⟩ := h
        subst h2
        refine ⟨?_, hn⟩
        have hte : p.tasks = [] := List.isEmpty_iff.mp ht
        rw [hte]
        rfl
      · rw [if_neg ht] at h
        obtain ⟨h1, h2⟩ := taskLoop_stats p.tasks fs₁ _ fs' s h
        refine ⟨?_, h2.trans hn⟩
        rw [h1]
        simp
  · intro htasks fs₁ k hdl
    have hk : k = 0 + dl.length := depsLoop_count dl fs 0 fs₁ k hdl
    refine ⟨?_, by omega⟩
    unfold runTasks
    rw [hd]
    dsimp only
    rw [hdl]
    dsimp only
    rw [htasks]
    rfl

theorem run_tasks_counters_exact_witness :
    (({ tasks := 1, dependencies := 0 } : Stats).tasks
        = (["x"] : List String).length)
    ∧ ({ tasks := 1, dependencies := 0 } : Stats).dependencies
        = ([] : List (String × String)).length :=
  (run_tasks_counters_exact envOk {} {}
    { dependencies := some [], tasks := ["x"] } [] rfl).1
    {} { tasks := 1, dependencies := 0 } rfl

/-- Claim C6.  A vendoring pass over a non-empty module mapping first clears
the stale submodule metadata (`.git/modules/`) and ensures the private
working area (`.quack/modules`), and running the same fetch pass twice in a
row yields the same destination entries — the second pass rewrites every
destination with the same environment-determined content, so nothing stale
accumulates. -/
theorem fetch_pass_idempotent (env : Env) (cfg : Config)
    (spec : Option String) (fs fs₁ fs₂ : FS) (ms : List (String × MCfg))
    (hms : cfg.modules = some ms) (hne : ¬ ms = [])
    (h1 : fetchModules env cfg spec fs = .ok fs₁)
    (h2 : fetchModules env cfg spec fs₁ = .ok fs₂) :
    (fs₁.gitModulesDir = false ∧ fs₁.quackModules = true)
    ∧ ∀ k, lookupRoot fs₂ k = lookupRoot fs₁ k := by
  obtain ⟨ha1, ha2, hk1⟩ := fetchModules_ok hms hne h1
  obtain ⟨_, _, hk2⟩ := fetchModules_ok hms hne h2
  refine ⟨⟨ha1, ha2⟩, fun k => ?_⟩
  rw [hk2 k]
  cases hpw : passWrite env spec ms k with
  | none => rfl
  | some v =>
    dsimp only
    rw [hk1 k, hpw]

/-- Claim C7.  Running the task `modules:<X>` followed by `-modules:<X>`
leaves no vendored output for `X` whenever the run completes: the negated
form removes the destination directory named `X`. -/
theorem fetch_then_clean_round_trip (env : Env) (cfg : Config) (fs fs' : FS)
    (s : Stats) (X : String) (mc : MCfg) (ms : List (String × MCfg))
    (hms : cfg.modules = some ms) (hmem : (X, mc) ∈ ms)
    (_hfile : mc.isfile = false)
    (hrepl : pyReplace ("modules:" ++ X) "modules:" "" = X)
    (hrun : runTasks env cfg
        { dependencies := some [],
          tasks := ["modules:" ++ X, "-modules:" ++ X] } fs = .ok (fs', s)) :
    lookupRoot fs' X = none := by
  have f1 : ("-modules:" ++ X).toList = '-' :: ("modules:" ++ X).toList := by
    rw [toList_append, toList_append]
    rfl
  have f2 : pySlice ("-modules:" ++ X) 1 (sLen ("-modules:" ++ X))
      = "modules:" ++ X := pySlice_strip_head '-' ("modules:" ++ X) _ f1
  have f3 : pyStartsWith ("modules:" ++ X) "modules:" = true :=
    pyStartsWith_append "modules:" X
  have f4 : (("modules:" ++ X) == "modules") = false := by
    apply string_beq_false_of_length
    rw [slen_append]
    intro hc
    rw [show sLen "modules:" = 8 from rfl] at hc
    rw [show sLen "modules" = 7 from rfl] at hc
    omega
  have hcl2 : classifyTask ("-modules:" ++ X) = .ok (true, "modules:" ++ X) := by
    unfold classifyTask
    rw [f1]
    dsimp only
    rw [f2]
    rfl
  have f4' : ¬ ("modules:" ++ X) = "modules" := beq_eq_false_iff_ne.mp f4
  have hstepClean : ∀ fs0 : FS, taskStep env cfg fs0 ("-modules:" ++ X)
      = cleanModules cfg (some X) fs0 := by
    intro fs0
    unfold taskStep
    rw [hcl2]
    simp only [Bind.bind, Except.bind, Pure.pure, Except.pure]
    simp [f3, f4, f4', hrepl]
  unfold runTasks at hrun
  dsimp only at hrun
  rw [show depsLoop env ([] : List (String × String)) fs 0 = .ok (fs, 0)
    from rfl] at hrun
  dsimp only at hrun
  rw [show (["modules:" ++ X, "-modules:" ++ X] : List String).isEmpty = false
    from rfl] at hrun
  simp only [Bool.false_eq_true, if_false] at hrun
  rw [taskLoop_cons] at hrun
  cases hst1 : taskStep env cfg fs ("modules:" ++ X) with
  | error e => rw [hst1] at hrun; simp at hrun
  | ok fsA =>
    rw [hst1] at hrun
    dsimp only at hrun
    rw [taskLoop_cons] at hrun
    cases hst2 : taskStep env cfg fsA ("-modules:" ++ X) with
    | error e => rw [hst2] at hrun; simp at hrun
    | ok fsB =>
      rw [hst2] at hrun
      dsimp only at hrun
      rw [taskLoop_nil] at hrun
      simp only [Except.ok.injEq, Prod.mk.injEq] at hrun
      obtain ⟨hB, _⟩ := hrun
      rw [hstepClean fsA] at hst2
      have hfil : (truthy (some X) && (some X != some X)) = false := by simp
      exact hB ▸ cleanModules_removes hms hmem hfil hst2

/-- Claim C10.  A module vendored with `isfile` true leaves a regular file at
its name; the clean operation only ever deletes directories — on a regular
file it fails with `NotADirectoryError` instead of removing it — so negation
reverses fetch only for the directory-copy case. -/
theorem clean_spares_single_file (env : Env) (cfg : Config)
    (spec : Option String) (fs fs₁ : FS) (ms : List (String × MCfg))
    (X : String) (mc : MCfg) (c : String)
    (hms : cfg.modules = some ms) (hmem : (X, mc) ∈ ms)
    (hfil : (truthy spec && (spec != some X)) = false)
    (hpw : passWrite env spec ms X = some (.file c))
    (hrun : fetchModules env cfg spec fs = .ok fs₁) :
    lookupRoot fs₁ X = some (.file c)
    ∧ cleanModules cfg spec fs₁ = .error .notADirectory
    ∧ (∀ (fsA fsA' : FS) (n : String),
        removeDir fsA n = .ok (fsA', true) →
        ∃ t, lookupRoot fsA n = some (.dir t)) := by
  have hne : ¬ ms = [] := by
    intro h0
    rw [h0] at hmem
    simp at hmem
  obtain ⟨_, _, hk⟩ := fetchModules_ok hms hne hrun
  have hX : lookupRoot fs₁ X = some (.file c) := by
    rw [hk X, hpw]
  refine ⟨hX, cleanModules_file_err hms hmem hfil hX, ?_⟩
  intro fsA fsA' n h
  unfold removeDir at h
  cases hl : lookupRoot fsA n with
  | none => rw [hl] at h; simp at h
  | some e =>
    cases e with
    | dir t => exact ⟨t, rfl⟩
    | file c0 => rw [hl] at h; simp at h

/-- Claim C4, amended.  For the dependency entry
`("quack", "sub/quack:build")` the dispatcher launches a nested invocation
in directory `sub` with profile argument `build` and config-file-name
argument `quack` (the text between the last `/` and the first `:` — not the
default), and `sub`'s version-control metadata is absent after the nested
process exits. -/
theorem nested_quack_dispatch (env : Env) (fs : FS)
    (hok : env.run "quack -p build -y quack" "sub" = 0) :
    ∃ fs', runNestedQuack env fs ("quack", "sub/quack:build") = .ok fs'
      ∧ ("quack -p build -y quack", "sub") ∈ fs'.calls
      ∧ ¬ "sub" ∈ fs'.vcs := by
  have hnc : ∀ fs3 : FS, niceCall env fs3 "quack -p build -y quack"
      (some "sub")
      = .ok (pushLog
          { pushLog fs3 "Executing 'quack -p build -y quack' in sub..." with
            calls := (pushLog fs3
                "Executing 'quack -p build -y quack' in sub...").calls
              ++ [("quack -p build -y quack", "sub")] }
          ("Got stdout:\n" ++ env.runOut "quack -p build -y quack" "sub")) := by
    intro fs3
    unfold niceCall
    dsimp only [Option.getD]
    rw [if_pos hok]
    rfl
  unfold runNestedQuack
  rw [show (("quack", "sub/quack:build").1 != "quack") = false from rfl]
  simp only [Bool.false_eq_true, if_false]
  rw [show nestedQuackParse env.cwd ("quack", "sub/quack:build").2
      = ("sub", ["quack", "-p", "build", "-y", "quack"]) from rfl]
  dsimp only
  rw [show joinSpace ["quack", "-p", "build", "-y", "quack"]
      = "quack -p build -y quack" from rfl]
  rw [hnc]
  refine ⟨_, rfl, ?_, ?_⟩
  · simp [vcsRemove, pushLog]
  · simp [vcsRemove, List.mem_filter]

theorem nested_quack_dispatch_witness :
    ∃ fs', runNestedQuack envOk {} ("quack", "sub/quack:build") = .ok fs'
      ∧ ("quack -p build -y quack", "sub") ∈ fs'.calls
      ∧ ¬ "sub" ∈ fs'.vcs :=
  nested_quack_dispatch envOk {} rfl

theorem fetch_pass_idempotent_witness :
    (fsM1.gitModulesDir = false ∧ fsM1.quackModules = true)
    ∧ lookupRoot fsM2 "m" = lookupRoot fsM1 "m" :=
  ⟨(fetch_pass_idempotent envOk cfgM none {} fsM1 fsM2 [("m", mcM)] rfl
      (by decide) rfl rfl).1,
    (fetch_pass_idempotent envOk cfgM none {} fsM1 fsM2 [("m", mcM)] rfl
      (by decide) rfl rfl).2 "m"⟩

theorem fetch_then_clean_round_trip_witness :
    lookupRoot fsM7 "m" = none :=
  fetch_then_clean_round_trip envOk cfgM {} fsM7
    { tasks := 2, dependencies := 0 } "m" mcM [("m", mcM)]
    rfl (by decide) rfl (by decide) rfl

theorem clean_spares_single_file_witness :
    lookupRoot fsF1 "f" = some (.file "data")
    ∧ cleanModules cfgF none fsF1 = .error .notADirectory :=
  ⟨(clean_spares_single_file envFile cfgF none {} fsF1 [("f", mcFile)]
      "f" mcFile "data" rfl (by decide) rfl rfl rfl).1,
    (clean_spares_single_file envFile cfgF none {} fsF1 [("f", mcFile)]
      "f" mcFile "data" rfl (by decide) rfl rfl rfl).2.1⟩

end Quack
